import Mathlib

/-!
# Citation Processor — verification of the citation pipeline

Shallow embedding of `src/app.py` (a Flask application that parses, enriches,
formats and rewrites Word-document endnote citations). Python strings are
modelled as `List Char` (`Chars`) inside the algorithms and as `String` at the
interfaces; Python `None`-able strings are `Option String`; Python truthiness
of such a value is `truthy` (non-`None` and non-empty). Character classes of
Python's regexes and string methods (`\s`, `\w`, `str.isupper`, `str.lower`)
are modelled over their ASCII core, which is all the claims exercise. The
external HTTP call of `lookup_citation` is modelled by an explicit
`HttpOutcome` argument; Python exceptions are `Except` values.
-/

/-! ## Character and string primitives -/

abbrev Chars := List Char

def spaceChar : Char := Char.ofNat 32

def apostropheChar : Char := Char.ofNat 39

/-- The characters Python's `\s` and `str.strip()` treat as whitespace
(ASCII core). -/
def isSpaceChar (c : Char) : Bool :=
  c == spaceChar || c == Char.ofNat 9 || c == Char.ofNat 10 ||
    c == Char.ofNat 11 || c == Char.ofNat 12 || c == Char.ofNat 13

/-- A regex word character `\w` (ASCII core): letter, digit or underscore. -/
def isWordChar (c : Char) : Bool :=
  c.isAlphanum || c == '_'

/-- The quote characters stripped from a candidate title: straight and curly,
single and double (the character class of line 264 of `app.py`). -/
def isQuoteChar (c : Char) : Bool :=
  c == Char.ofNat 34 || c == apostropheChar || c == Char.ofNat 0x201C ||
    c == Char.ofNat 0x201D || c == Char.ofNat 0x2018 || c == Char.ofNat 0x2019

/-- Remove trailing characters satisfying `p` (right-hand half of
`str.strip()`). -/
def dropEndWhile (p : Char → Bool) (l : Chars) : Chars :=
  (l.reverse.dropWhile p).reverse

def rtrimChars (l : Chars) : Chars := dropEndWhile isSpaceChar l

/-- Python `str.strip()`. -/
def pyStrip (l : Chars) : Chars := rtrimChars (l.dropWhile isSpaceChar)

/-- Python truthiness of an optional string: `None` and `""` are falsy. -/
def truthy : Option String → Bool
  | none => false
  | some s => !s.isEmpty

/-- Python `text.split(sep)` for a one-character separator: keeps empty
segments, never returns an empty list. -/
def splitOnChar (sep : Char) : Chars → List Chars
  | [] => [[]]
  | c :: rest =>
    if c == sep then [] :: splitOnChar sep rest
    else
      match splitOnChar sep rest with
      | s :: ss => (c :: s) :: ss
      | [] => [[c]]

/-- Whether `pat` occurs as a contiguous run at the start of `l` (regex-style literal
match). -/
def leadsWith : Chars → Chars → Bool
  | [], _ => true
  | _ :: _, [] => false
  | a :: as, b :: bs => a == b && leadsWith as bs

/-- Whether `pat` occurs as a contiguous run somewhere in `l` (Python `in` on
strings). -/
def hasSegment (pat : Chars) : Chars → Bool
  | [] => pat.isEmpty
  | c :: rest => leadsWith pat (c :: rest) || hasSegment pat rest

def lowerChars (l : Chars) : Chars := l.map Char.toLower

/-- Model of `re.sub(r'<em>|</em>', '', ·)`: delete every emphasis tag, scanning left
to right (line 329 of `app.py`). -/
def stripEmTags : Chars → Chars
  | [] => []
  | '<' :: 'e' :: 'm' :: '>' :: rest => stripEmTags rest
  | '<' :: '/' :: 'e' :: 'm' :: '>' :: rest => stripEmTags rest
  | c :: rest => c :: stripEmTags rest

def emOpen : Chars := ['<', 'e', 'm', '>']

def emClose : Chars := ['<', '/', 'e', 'm', '>']

/-- Python slicing `s[:n]`. -/
def takeStr (n : Nat) (s : String) : String := (s.toList.take n).asString

/-- A Python `for`-loop that can raise: evaluate `f` left to right, abort at
the first exception. -/
def mapExcept (f : α → Except ε β) : List α → Except ε (List β)
  | [] => .ok []
  | a :: l =>
    match f a with
    | .error e => .error e
    | .ok b =>
      match mapExcept f l with
      | .error e => .error e
      | .ok bs => .ok (b :: bs)

/-! ## Data model -/

/-- The citation-field dictionary built by `parse_endnote_text` (lines
234–242): six optional fields plus the always-present `original_text`. -/
structure CitationData where
  author : Option String
  title : Option String
  publisher : Option String
  place : Option String
  year : Option String
  page : Option String
  original_text : String
deriving DecidableEq

/-- The dictionary returned by a successful `lookup_citation` (lines
211–217): the five keys its merge loop iterates. The publish year, an
integer in the JSON, is carried as its rendered string. -/
structure LookupData where
  author : Option String
  title : Option String
  publisher : Option String
  place : Option String
  year : Option String
deriving DecidableEq

/-- One candidate document of the Open Library response. List-valued JSON
fields collapse a missing key and an empty list into `[]` (both are falsy at
every use site); `title` keeps key presence (outer `Option`) apart from a
null value (inner `Option`) because `doc.get('title', title)` distinguishes
them. -/
structure OLDoc where
  author_name : List String
  title : Option (Option String)
  publisher : List String
  publish_place : List String
  first_publish_year : Option String
deriving DecidableEq

/-- The parsed JSON body: its `docs` list, with a missing key collapsed to
`[]`. -/
structure OLResponse where
  docs : List OLDoc
deriving DecidableEq

/-- The outcome of the one outbound HTTP request of `lookup_citation`:
a raised exception in `requests.get` (timeout or transport failure), or a
response with its `ok` flag and — when `ok` — a JSON body (`none` = the body
is malformed and `response.json()` raises). -/
inductive HttpOutcome where
  | transportFailure
  | response (ok : Bool) (body : Option OLResponse)
deriving DecidableEq

/-- A `w:t` text run inside an endnote: `firstChild` is its text node, absent
for a childless `<w:t/>`. -/
structure WT where
  firstChild : Option String
deriving DecidableEq

/-- A `w:endnote` element of `word/endnotes.xml`: its `w:id` attribute (`""`
when absent) and its `w:t` descendants in document order. -/
structure Endnote where
  id : String
  wts : List WT
deriving DecidableEq

/-- The endnote-storage subdocument: its endnote elements in document
order. -/
abbrev Doc := List Endnote

/-- One record of the processing log (lines 373–377). -/
structure LogEntry where
  id : String
  original : String
  formatted : String
deriving DecidableEq

/-- The dictionary `process_document` returns: success with the rewritten
endnotes subdocument (the only part of the package the pipeline modifies),
the note count and the log, or failure with a reason string. -/
inductive ProcResult where
  | success (outEndnotes : Doc) (endnotesProcessed : Nat) (log : List LogEntry)
  | failure (error : String)
deriving DecidableEq

/-! ## Citation formatting (lines 30–188) -/

/-- The `PUBLISHER_PLACE_MAP` table, in insertion order. -/
def PUBLISHER_PLACE_MAP : List (String × String) :=
  [("Harvard University Press", "Cambridge"),
   ("MIT Press", "Cambridge"),
   ("Yale University Press", "New Haven"),
   ("Princeton University Press", "Princeton"),
   ("Stanford University Press", "Stanford"),
   ("University of California Press", "Berkeley"),
   ("University of Chicago Press", "Chicago"),
   ("Columbia University Press", "New York"),
   ("Cornell University Press", "Ithaca"),
   ("Duke University Press", "Durham"),
   ("Johns Hopkins University Press", "Baltimore"),
   ("Oxford University Press", "Oxford"),
   ("Cambridge University Press", "Cambridge"),
   ("Penguin", "New York"),
   ("Random House", "New York"),
   ("HarperCollins", "New York"),
   ("Simon & Schuster", "New York")]

/-- Model of `infer_place_from_publisher` (lines 52–60): first table entry whose name
is a case-insensitive substring of the publisher in either direction. -/
def infer_place_from_publisher (publisher : String) : String :=
  if publisher.isEmpty then ""
  else
    match PUBLISHER_PLACE_MAP.find? (fun q =>
      hasSegment (lowerChars q.1.toList) (lowerChars publisher.toList) ||
        hasSegment (lowerChars publisher.toList) (lowerChars q.1.toList)) with
    | some q => q.2
    | none => ""

/-- Model of `format_chicago` (lines 62–91), mirroring its incremental string
building. -/
def format_chicago (c : CitationData) : String :=
  let author := (c.author.getD "").toList
  let title := (c.title.getD "").toList
  let place := (c.place.getD "").toList
  let publisher := (c.publisher.getD "").toList
  let year := (c.year.getD "").toList
  let page := (c.page.getD "").toList
  let s := author ++ (',' :: spaceChar :: emOpen) ++ title ++ emClose
  let s :=
    if place ≠ [] ∨ publisher ≠ [] ∨ year ≠ [] then
      let t := s ++ (spaceChar :: ['('])
      let t :=
        if place ≠ [] then
          let u := t ++ place
          if publisher ≠ [] ∨ year ≠ [] then u ++ (':' :: [spaceChar]) else u
        else t
      let t :=
        if publisher ≠ [] then
          let u := t ++ publisher
          if year ≠ [] then u ++ (',' :: [spaceChar]) else u
        else t
      let t := if year ≠ [] then t ++ year else t
      t ++ [')']
    else s
  let s := if page ≠ [] then s ++ (',' :: spaceChar :: page) else s
  (s ++ ['.']).asString

/-- Model of `format_mla` (lines 93–116). -/
def format_mla (c : CitationData) : String :=
  let author := (c.author.getD "").toList
  let title := (c.title.getD "").toList
  let publisher := (c.publisher.getD "").toList
  let year := (c.year.getD "").toList
  let page := (c.page.getD "").toList
  let author :=
    if author ≠ [] then
      let parts := splitOnChar spaceChar author
      if 2 ≤ parts.length then
        parts.getLastD [] ++ (',' :: [spaceChar]) ++
          List.intercalate [spaceChar] parts.dropLast
      else author
    else author
  let s := author ++ ('.' :: spaceChar :: emOpen) ++ title ++ emClose
  let s := if publisher ≠ [] then s ++ ('.' :: spaceChar :: publisher) else s
  let s := if year ≠ [] then s ++ (',' :: spaceChar :: year) else s
  let s :=
    if page ≠ [] then
      s ++ (',' :: spaceChar :: 'p' :: 'p' :: '.' :: spaceChar :: page)
    else s
  (s ++ ['.']).asString

/-- Indexing `p[0]` on a Python string: raises `IndexError` on the empty string. -/
def headChar : Chars → Except Unit Char
  | [] => .error ()
  | c :: _ => .ok c

/-- The APA author transform of lines 128–132: invert the name and reduce the
leading tokens to initials; `p[0]` on an empty token raises. -/
def apaInvert (author : Chars) : Except Unit Chars :=
  let parts := splitOnChar spaceChar author
  if 2 ≤ parts.length then
    match mapExcept headChar parts.dropLast with
    | .error e => .error e
    | .ok firsts =>
      let initials :=
        List.intercalate ('.' :: [spaceChar]) (firsts.map (fun c => [c])) ++ ['.']
      .ok (parts.getLastD [] ++ (',' :: [spaceChar]) ++ initials)
  else .ok author

/-- The guarded author transform of lines 128–132: applied only to a truthy
author. -/
def apaAuthorStep (author : Chars) : Except Unit Chars :=
  if author.isEmpty then .ok author else apaInvert author

/-- The string building of `format_apa` after the author transform has
succeeded. -/
def apaBody (c : CitationData) (author : Chars) : String :=
  let title := (c.title.getD "").toList
  let place := (c.place.getD "").toList
  let publisher := (c.publisher.getD "").toList
  let year := (c.year.getD "").toList
  let page := (c.page.getD "").toList
  let s := author
  let s :=
    if year ≠ [] then
      s ++ (spaceChar :: ['(']) ++ year ++ (')' :: ['.'])
    else s
  let s := s ++ (spaceChar :: emOpen) ++ title ++ emClose
  let s :=
    if place ≠ [] ∧ publisher ≠ [] then
      s ++ ('.' :: [spaceChar]) ++ place ++ (':' :: [spaceChar]) ++ publisher
    else if publisher ≠ [] then s ++ ('.' :: [spaceChar]) ++ publisher
    else s
  let s :=
    if page ≠ [] then
      s ++ (',' :: spaceChar :: 'p' :: 'p' :: '.' :: spaceChar :: page)
    else s
  (s ++ ['.']).asString

/-- Model of `format_apa` (lines 118–148): the one renderer that can raise
(inside the author transform). -/
def format_apa (c : CitationData) : Except Unit String :=
  Except.map (apaBody c) (apaAuthorStep ((c.author.getD "").toList))

/-- Model of `format_bluebook` (lines 150–175). -/
def format_bluebook (c : CitationData) : String :=
  let author := (c.author.getD "").toList
  let title := (c.title.getD "").toList
  let publisher := (c.publisher.getD "").toList
  let year := (c.year.getD "").toList
  let page := (c.page.getD "").toList
  let s := if author ≠ [] then author ++ (',' :: [spaceChar]) else []
  let s := s ++ (if title ≠ [] then title.map Char.toUpper else "UNTITLED".toList)
  let s := if page ≠ [] then s ++ (spaceChar :: page) else s
  let s :=
    if publisher ≠ [] ∨ year ≠ [] then
      let t := s ++ (spaceChar :: ['('])
      let t := if publisher ≠ [] then t ++ publisher else t
      let t := if publisher ≠ [] ∧ year ≠ [] then t ++ [spaceChar] else t
      let t := if year ≠ [] then t ++ year else t
      t ++ [')']
    else s
  (s ++ ['.']).asString

/-- Model of `format_citation` (lines 177–188): dispatch on the style selector,
defaulting to Chicago; only the APA branch can raise. -/
def format_citation (c : CitationData) (style : String) : Except Unit String :=
  if style = "chicago" then .ok (format_chicago c)
  else if style = "mla" then .ok (format_mla c)
  else if style = "apa" then format_apa c
  else if style = "bluebook" then .ok (format_bluebook c)
  else .ok (format_chicago c)

/-! ## Heuristic parsing (lines 229–268) -/

/-- Model of `re.sub(r'^\s*\d+\s*', '', ·)` (line 232): remove one leading run of
whitespace, digits, whitespace — provided at least one digit is present. -/
def stripLeadingLabel (l : Chars) : Chars :=
  let rest := l.dropWhile isSpaceChar
  match rest with
  | c :: _ =>
    if c.isDigit then (rest.dropWhile Char.isDigit).dropWhile isSpaceChar else l
  | [] => l

/-- The working copy of the input text: leading numeric label removed, then
`str.strip()`. -/
def stripCitationLabel (s : String) : String :=
  (pyStrip (stripLeadingLabel s.toList)).asString

/-- A regex word boundary against the neighbouring character (`none` = edge
of the string). -/
def boundaryOk : Option Char → Bool
  | none => true
  | some c => !isWordChar c

/-- Does `re.search(r'\b(19|20)\d{2}\b', ·)` match at this position? `prev`
is the character just before it. -/
def yearAt (prev : Option Char) (l : Chars) : Option Chars :=
  match l with
  | c1 :: c2 :: c3 :: c4 :: rest =>
    if boundaryOk prev &&
        ((c1 == '1' && c2 == '9') || (c1 == '2' && c2 == '0')) &&
        c3.isDigit && c4.isDigit && boundaryOk rest.head? then
      some [c1, c2, c3, c4]
    else none
  | _ => none

/-- Leftmost match of the year regex (line 245). -/
def findYear : Option Char → Chars → Option Chars
  | _, [] => none
  | prev, c :: rest =>
    match yearAt prev (c :: rest) with
    | some y => some y
    | none => findYear (some c) rest

/-- Split off the maximal trailing digit run. -/
def splitTrailingDigits (l : Chars) : Chars × Chars :=
  let r := l.reverse
  ((r.dropWhile Char.isDigit).reverse, (r.takeWhile Char.isDigit).reverse)

/-- Model of `re.search(r'\b(\d+(?:-\d+)?)\s*\.?\s*$', ·).group(1)` (line 250),
decoded from the end of the string: trailing whitespace, at most one period,
whitespace, then the page digits, optionally `digits-digits`, with a word
boundary before the leftmost digit taken. -/
def findPage (l : Chars) : Option Chars :=
  let l1 := rtrimChars l
  let l2 :=
    match l1.getLast? with
    | some c => if c == '.' then rtrimChars l1.dropLast else l1
    | none => l1
  let pd := splitTrailingDigits l2
  if pd.2.isEmpty then none
  else
    match pd.1.getLast? with
    | none => some pd.2
    | some c =>
      if c == '-' then
        let qd := splitTrailingDigits pd.1.dropLast
        if !qd.2.isEmpty && boundaryOk qd.1.getLast? then
          some (qd.2 ++ ('-' :: pd.2))
        else some pd.2
      else if isWordChar c then none else some pd.2

/-- The comma-split heuristic of lines 254–266: segment 0 becomes the author
when its first character is upper-case, segment 1 stripped of surrounding
quotes becomes the title when non-empty. -/
def parseAuthorTitle : List Chars → Option String × Option String
  | p0 :: p1 :: _ =>
    let pa := pyStrip p0
    let author :=
      match pa with
      | c :: cs => if c.isUpper then some ((c :: cs).asString) else none
      | [] => none
    let pt := dropEndWhile isQuoteChar ((pyStrip p1).dropWhile isQuoteChar)
    let title := if pt.isEmpty then none else some pt.asString
    (author, title)
  | _ => (none, none)

/-- Model of `parse_endnote_text` (lines 229–268). Note line 241: the `original_text`
it stores is the label-stripped working copy, not the raw argument. -/
def parse_endnote_text (raw : String) : CitationData :=
  let text := pyStrip (stripLeadingLabel raw.toList)
  let year := (findYear none text).map List.asString
  let page := (findPage text).map List.asString
  let at2 := parseAuthorTitle (splitOnChar ',' text)
  { author := at2.1, title := at2.2, publisher := none, place := none,
    year := year, page := page, original_text := text.asString }

/-! ## Enrichment lookup (lines 192–227) -/

/-- Model of `lookup_citation` (lines 192–227), with the outcome of its one HTTP
request passed in. Every failure path — guard, transport failure, non-ok
response, malformed body, empty candidate list — returns `none`. -/
def lookup_citation (author title : Option String) (resp : HttpOutcome) :
    Option LookupData :=
  if truthy author || truthy title then
    match resp with
    | .transportFailure => none
    | .response false _ => none
    | .response true none => none
    | .response true (some r) =>
      match r.docs with
      | [] => none
      | d :: _ =>
        let a := match d.author_name with | x :: _ => some x | [] => author
        let t := match d.title with | some v => v | none => title
        let pub := d.publisher.head?
        let pl := d.publish_place.head?
        let pl :=
          if !truthy pl && truthy pub then
            some (infer_place_from_publisher (pub.getD ""))
          else pl
        some { author := a, title := t, publisher := pub, place := pl,
               year := d.first_publish_year }
  else none

/-! ## Container read and write (lines 286–334) -/

/-- An endnote id addressable by the pipeline: present and not a reserved
sentinel (line 296). -/
def noteQualifies (id : String) : Bool :=
  id != "" && id != "-1" && id != "0"

/-- Concatenation (`''.join`) of the text nodes of a note's `w:t` runs (lines 297–301). -/
def joinTexts (wts : List WT) : String :=
  String.mk (wts.foldr (fun t acc => (t.firstChild.getD "").toList ++ acc) [])

/-- Python dict assignment `d[k] = v`: overwrite in place if the key exists,
else append. -/
def dictInsert (l : List (String × String)) (k v : String) :
    List (String × String) :=
  if l.any (fun q => q.1 == k) then
    l.map (fun q => if q.1 == k then (k, v) else q)
  else l ++ [(k, v)]

/-- The extraction loop of lines 294–302 over the remaining endnotes, with
the dictionary built so far. -/
def extractFrom (acc : List (String × String)) : Doc → List (String × String)
  | [] => acc
  | en :: rest =>
    extractFrom
      (if noteQualifies en.id then dictInsert acc en.id (joinTexts en.wts)
       else acc)
      rest

/-- Model of `extract_endnotes` (lines 286–304): note id ↦ concatenated text, skipping
absent and reserved sentinel ids. -/
def extract_endnotes (doc : Doc) : List (String × String) :=
  extractFrom [] doc

/-- Clearing pass of lines 318–320: empty every text node that exists. -/
def clearWT (t : WT) : WT :=
  ⟨t.firstChild.map (fun _ => "")⟩

/-- The per-note write of lines 316–330: clear all text runs, then assign the
tag-stripped text to the first run's text node; `t_elem.firstChild.nodeValue`
on a childless first run raises `AttributeError`. -/
def update_note (en : Endnote) (txt : String) : Except Unit Endnote :=
  match en.wts.map clearWT with
  | [] => .ok ⟨en.id, []⟩
  | t0 :: rest =>
    match t0.firstChild with
    | none => .error ()
    | some _ => .ok ⟨en.id, ⟨some ((stripEmTags txt.toList).asString)⟩ :: rest⟩

/-- Model of `update_endnotes_xml` (lines 306–334): rewrite every endnote whose id is
a key of the mapping, leave the rest untouched; the first raised exception
aborts the whole write. -/
def update_endnotes_xml (doc : Doc) (m : String → Option String) :
    Except Unit Doc :=
  mapExcept
    (fun en =>
      match m en.id with
      | some txt => update_note en txt
      | none => .ok en)
    doc

/-! ## The orchestrator (lines 336–397) -/

/-- The merge loop of lines 365–367: adopt a looked-up value only when it is
truthy and the parsed value is falsy. -/
def mergeField (p e : Option String) : Option String :=
  if truthy e && !truthy p then e else p

/-- The whole merge step: the five keys of the lookup dictionary, applied to
the parsed fields; `page` and `original_text` have no lookup counterpart. -/
def mergeLookup (parsed : CitationData) (lr : LookupData) : CitationData :=
  { parsed with
    author := mergeField parsed.author lr.author,
    title := mergeField parsed.title lr.title,
    publisher := mergeField parsed.publisher lr.publisher,
    place := mergeField parsed.place lr.place,
    year := mergeField parsed.year lr.year }

def indexErrMsg : String := "string index out of range"

def pyAttrErrMsg : String :=
  String.mk
    (apostropheChar :: ("NoneType".toList ++
      (apostropheChar :: " object has no attribute ".toList) ++
      (apostropheChar :: "nodeValue".toList) ++ [apostropheChar]))

/-- The per-note body of the loop at lines 356–377: parse, conditionally look
up and merge, format, log. The environment's answer to the one possible HTTP
request is `oracle`. -/
def processNote (style : String)
    (oracle : Option String → Option String → HttpOutcome)
    (noteId noteText : String) : Except Unit (String × LogEntry) :=
  let parsed := parse_endnote_text noteText
  let parsed :=
    if truthy parsed.author || truthy parsed.title then
      match lookup_citation parsed.author parsed.title
          (oracle parsed.author parsed.title) with
      | some lr => mergeLookup parsed lr
      | none => parsed
    else parsed
  match format_citation parsed style with
  | .error e => .error e
  | .ok fm => .ok (fm, ⟨noteId, takeStr 100 noteText, takeStr 100 fm⟩)

/-- Model of `process_document` (lines 336–397) on the unpacked container: `none`
means `word/endnotes.xml` is absent. The `use_incipit` flag is accepted, as
in the source, and never read. Exceptions raised inside the `try` block are
caught and returned as failures carrying `str(e)`. -/
def process_document (endnotes : Option Doc) (citation_style : String)
    (use_incipit : Bool)
    (oracle : Option String → Option String → HttpOutcome) : ProcResult :=
  match endnotes with
  | none => .failure "No endnotes found in document"
  | some d =>
    let notes := extract_endnotes d
    match mapExcept (fun p => processNote citation_style oracle p.1 p.2) notes with
    | .error _ => .failure indexErrMsg
    | .ok results =>
      let formattedList := (notes.map Prod.fst).zip (results.map Prod.fst)
      let log := results.map Prod.snd
      match update_endnotes_xml d
          (fun id => (formattedList.find? (fun q => q.1 == id)).map Prod.snd) with
      | .error _ => .failure pyAttrErrMsg
      | .ok d2 => .success d2 formattedList.length log

/-! ## Reference definitions used by the amended statements -/

/-- A Citation Fields value with every optional field absent. -/
def emptyCitation : CitationData :=
  { author := none, title := none, publisher := none, place := none,
    year := none, page := none, original_text := "" }

/-- The merge rule as the spec words it: keep a populated parsed value; fill
an unpopulated one exactly when the looked-up value is populated. -/
def specMergeField (p e : Option String) : Option String :=
  if truthy p then p else if truthy e then e else p

/-- The author strings on which the APA name transform raises `IndexError`:
a truthy author whose single-space split has at least two segments, one of
the leading segments being empty (a leading or doubled space). -/
def apaCrashesL (a : Chars) : Bool :=
  !a.isEmpty &&
    (decide (2 ≤ (splitOnChar spaceChar a).length) &&
      (splitOnChar spaceChar a).dropLast.any (fun p => p.isEmpty))

def apaAuthorCrashes (author : String) : Bool :=
  apaCrashesL author.toList

/-- The Chicago output as a concatenation of conditional segments: the
author–title comma group is unconditional; the parenthetical group appears
when any of place, publisher, year is present; `": "` follows the place when
publisher or year follows; `", "` separates publisher and year when both are
present; `", page"` appears when the page is present. -/
def chicagoSegments (c : CitationData) : String :=
  let author := (c.author.getD "").toList
  let title := (c.title.getD "").toList
  let place := (c.place.getD "").toList
  let publisher := (c.publisher.getD "").toList
  let year := (c.year.getD "").toList
  let page := (c.page.getD "").toList
  (author ++ (',' :: spaceChar :: emOpen) ++ title ++ emClose ++
    (if place ≠ [] ∨ publisher ≠ [] ∨ year ≠ [] then
      (spaceChar :: ['(']) ++
        (if place ≠ [] then
          place ++ (if publisher ≠ [] ∨ year ≠ [] then ':' :: [spaceChar] else [])
        else []) ++
        (if publisher ≠ [] then
          publisher ++ (if year ≠ [] then ',' :: [spaceChar] else [])
        else []) ++
        (if year ≠ [] then year else []) ++ [')']
    else []) ++
    (if page ≠ [] then ',' :: spaceChar :: page else []) ++ ['.']).asString

/-- The rewrite a mapping induces on one extracted entry: a mapped id gets
the tag-stripped formatted text, an unmapped entry is unchanged. -/
def emApply (m : String → Option String) (p : String × String) :
    String × String :=
  match m p.1 with
  | some txt => (p.1, (stripEmTags txt.toList).asString)
  | none => p

/-- Whether the first text run of a list of runs, if any, has a text node
(the write of `update_endnotes_xml` raises otherwise). -/
def wtHeadOk (wts : List WT) : Bool :=
  match wts with
  | [] => true
  | t0 :: _ => t0.firstChild.isSome

/-- The documents and mappings on which the write side completes and every
mapped, addressable note actually receives its text: every endnote whose id
is mapped has a first text run with a text node, and has at least one text
run when its id is addressable by extraction. -/
def goodForUpdate (doc : Doc) (m : String → Option String) : Prop :=
  ∀ en ∈ doc, (m en.id).isSome = true →
    wtHeadOk en.wts = true ∧ (noteQualifies en.id = true → en.wts ≠ [])

/-! ## General lemmas -/

@[simp] theorem isOk_error (e : ε) : (Except.error e : Except ε α).isOk = false := rfl

@[simp] theorem isOk_ok (a : α) : (Except.ok a : Except ε α).isOk = true := rfl

theorem mapExcept_headChar_isOk (l : List Chars) :
    (mapExcept headChar l).isOk = !l.any (fun p => p.isEmpty) := by
  induction l with
  | nil => rfl
  | cons p l ih =>
    cases p with
    | nil => simp [mapExcept, headChar]
    | cons c cs =>
      simp only [mapExcept, headChar, List.any_cons, List.isEmpty_cons,
        Bool.false_or]
      cases h : mapExcept headChar l with
      | error e =>
        rw [h] at ih
        simpa using ih
      | ok bs =>
        rw [h] at ih
        simpa using ih

theorem apaInvert_isOk (a : Chars) :
    (apaInvert a).isOk =
      !(decide (2 ≤ (splitOnChar spaceChar a).length) &&
        (splitOnChar spaceChar a).dropLast.any (fun p => p.isEmpty)) := by
  unfold apaInvert
  by_cases h : 2 ≤ (splitOnChar spaceChar a).length
  · have h2 := mapExcept_headChar_isOk ((splitOnChar spaceChar a).dropLast)
    cases hm : mapExcept headChar ((splitOnChar spaceChar a).dropLast) with
    | error e =>
      rw [hm] at h2
      simp only [isOk_error] at h2
      simp [h, hm, ← h2]
    | ok firsts =>
      rw [hm] at h2
      simp only [isOk_ok] at h2
      simp [h, hm, ← h2]
  · simp [h]

theorem apaAuthorStep_isOk (a : Chars) :
    (apaAuthorStep a).isOk = !apaCrashesL a := by
  unfold apaAuthorStep apaCrashesL
  by_cases h : a.isEmpty
  · simp [h]
  · have hf : a.isEmpty = false := Bool.eq_false_iff.mpr h
    simp [hf, apaInvert_isOk]

theorem isOk_map (f : α → β) (x : Except ε α) :
    (Except.map f x).isOk = x.isOk := by
  cases x <;> rfl

theorem format_apa_isOk (c : CitationData) :
    (format_apa c).isOk = !apaAuthorCrashes (c.author.getD "") := by
  rw [show apaAuthorCrashes (c.author.getD "") =
      apaCrashesL ((c.author.getD "").toList) from rfl,
    ← apaAuthorStep_isOk]
  unfold format_apa
  rw [isOk_map]

theorem exists_prefix_dropWhile (p : Char → Bool) (l : Chars) :
    ∃ pre, l = pre ++ l.dropWhile p := by
  induction l with
  | nil => exact ⟨[], rfl⟩
  | cons c l ih =>
    by_cases h : p c
    · obtain ⟨pre, hl⟩ := ih
      exact ⟨c :: pre, by simp [List.dropWhile_cons, h, ← hl]⟩
    · exact ⟨[], by simp [List.dropWhile_cons, h]⟩

theorem exists_suffix_dropEndWhile (p : Char → Bool) (l : Chars) :
    ∃ suf, l = dropEndWhile p l ++ suf := by
  obtain ⟨pre, hl⟩ := exists_prefix_dropWhile p l.reverse
  refine ⟨pre.reverse, ?_⟩
  have := congrArg List.reverse hl
  simpa [dropEndWhile] using this

theorem exists_prefix_stripLeadingLabel (l : Chars) :
    ∃ pre, l = pre ++ stripLeadingLabel l := by
  unfold stripLeadingLabel
  cases hrest : l.dropWhile isSpaceChar with
  | nil => exact ⟨[], rfl⟩
  | cons c cs =>
    by_cases hd : c.isDigit
    · simp only [hd, if_true]
      obtain ⟨p1, h1⟩ := exists_prefix_dropWhile isSpaceChar l
      rw [hrest] at h1
      obtain ⟨p2, h2⟩ := exists_prefix_dropWhile Char.isDigit (c :: cs)
      obtain ⟨p3, h3⟩ :=
        exists_prefix_dropWhile isSpaceChar ((c :: cs).dropWhile Char.isDigit)
      refine ⟨p1 ++ (p2 ++ p3), ?_⟩
      calc l = p1 ++ (c :: cs) := h1
        _ = p1 ++ (p2 ++ (c :: cs).dropWhile Char.isDigit) := by rw [← h2]
        _ = p1 ++ (p2 ++ (p3 ++ ((c :: cs).dropWhile Char.isDigit).dropWhile isSpaceChar)) := by
            rw [← h3]
        _ = p1 ++ (p2 ++ p3) ++ ((c :: cs).dropWhile Char.isDigit).dropWhile isSpaceChar := by
            simp [List.append_assoc]
    · simp only [hd, if_false]
      exact ⟨[], rfl⟩

theorem exists_around_pyStrip_stripLeadingLabel (l : Chars) :
    ∃ pre suf, l = pre ++ pyStrip (stripLeadingLabel l) ++ suf := by
  obtain ⟨p1, h1⟩ := exists_prefix_stripLeadingLabel l
  obtain ⟨p2, h2⟩ := exists_prefix_dropWhile isSpaceChar (stripLeadingLabel l)
  obtain ⟨s3, h3⟩ := exists_suffix_dropEndWhile isSpaceChar ((stripLeadingLabel l).dropWhile isSpaceChar)
  refine ⟨p1 ++ p2, s3, ?_⟩
  unfold pyStrip rtrimChars
  calc l = p1 ++ stripLeadingLabel l := h1
    _ = p1 ++ (p2 ++ (stripLeadingLabel l).dropWhile isSpaceChar) := by rw [← h2]
    _ = p1 ++ (p2 ++ (dropEndWhile isSpaceChar ((stripLeadingLabel l).dropWhile isSpaceChar) ++ s3)) := by
        rw [← h3]
    _ = p1 ++ p2 ++ dropEndWhile isSpaceChar ((stripLeadingLabel l).dropWhile isSpaceChar) ++ s3 := by
        simp [List.append_assoc]

/-! ## The claims -/

/-- C1 (amended): `parse_endnote_text` always terminates and stores in
`original_text` the working copy of the input — the input with one leading
run of whitespace-digits-whitespace removed and surrounding whitespace
stripped — which is, in particular, always a contiguous infix of the input;
it is not the original input itself. -/
theorem c1_parse_stores_working_copy (raw : String) :
    (parse_endnote_text raw).original_text = stripCitationLabel raw ∧
      ∃ pre suf,
        raw.toList = pre ++ (parse_endnote_text raw).original_text.toList ++ suf := by
  constructor
  · rfl
  · have h := exists_around_pyStrip_stripLeadingLabel raw.toList
    simpa [parse_endnote_text, stripCitationLabel] using h

/-- C1 counterexample: on input `" 12 Foo, Bar"` the stored `original_text`
is the stripped working copy `"Foo, Bar"`, not the original input. -/
theorem c1_counterexample :
    (parse_endnote_text " 12 Foo, Bar").original_text = "Foo, Bar" ∧
      ((" 12 Foo, Bar" : String) == "Foo, Bar") = false := by
  constructor
  · rfl
  · rfl

/-- C2 (amended): `format_citation` never raises except in the `apa` style
when the author splits on single spaces into at least two segments one of
the leading segments being empty (author beginning with a space or holding
two adjacent spaces); on the all-empty Citation Fields every one of the four
styles succeeds with a non-empty string. -/
theorem c2_render_totality :
    (∀ (c : CitationData) (style : String),
      (format_citation c style).isOk =
        !(decide (style = "apa") && apaAuthorCrashes (c.author.getD ""))) ∧
    format_citation emptyCitation "chicago" = .ok ", <em></em>." ∧
    format_citation emptyCitation "mla" = .ok ". <em></em>." ∧
    format_citation emptyCitation "apa" = .ok " <em></em>." ∧
    format_citation emptyCitation "bluebook" = .ok "UNTITLED." ∧
    (", <em></em>." : String) ≠ "" ∧ (". <em></em>." : String) ≠ "" ∧
    (" <em></em>." : String) ≠ "" ∧ ("UNTITLED." : String) ≠ "" := by
  refine ⟨?_, by rfl, by rfl, by rfl, by rfl,
    by decide, by decide, by decide, by decide⟩
  intro c style
  unfold format_citation
  by_cases h1 : style = "chicago"
  · simp [h1]
  · by_cases h2 : style = "mla"
    · simp [h1, h2]
    · by_cases h3 : style = "apa"
      · simp [h1, h2, h3, format_apa_isOk]
      · by_cases h4 : style = "bluebook"
        · simp [h1, h2, h3, h4]
        · simp [h1, h2, h3, h4]

/-- C2 witness: the amended claim applied to the all-empty fields and the
`apa` style. -/
theorem c2_witness : (format_citation emptyCitation "apa").isOk = true := by
  have h := c2_render_totality.1 emptyCitation "apa"
  simpa using h

/-- A Citation Fields value whose author is a lone space. -/
def spaceAuthorCitation : CitationData :=
  { author := some " ", title := none, publisher := none, place := none,
    year := none, page := none, original_text := "" }

/-- C2 counterexample: an author value of a lone space makes the APA
renderer raise `IndexError` — `format_citation` does not terminate without
error on every Citation Fields value. -/
theorem c2_counterexample :
    format_citation spaceAuthorCitation "apa" = .error () := by
  rfl

/-- C4 (confirmed): the orchestrator merge loop never replaces a populated
parsed field and fills an unpopulated one exactly when the looked-up value
is populated; `page` and `original_text` are untouched. -/
theorem c4_merge_policy (parsed : CitationData) (lr : LookupData) :
    mergeLookup parsed lr =
      { author := specMergeField parsed.author lr.author,
        title := specMergeField parsed.title lr.title,
        publisher := specMergeField parsed.publisher lr.publisher,
        place := specMergeField parsed.place lr.place,
        year := specMergeField parsed.year lr.year,
        page := parsed.page,
        original_text := parsed.original_text } := by
  have hf : ∀ p e, mergeField p e = specMergeField p e := by
    intro p e
    unfold mergeField specMergeField
    cases hp : truthy p <;> cases he : truthy e <;> simp
  cases parsed
  simp [mergeLookup, hf]

/-- C5 (amended): the Chicago renderer is exactly the concatenation of
conditional segments `chicagoSegments`: the author–title `", "` group is
unconditional; the parenthetical appears when any of place, publisher, year
is present; `": "` follows the place exactly when publisher or year follows;
`", "` separates publisher and year exactly when both are present; `", page"`
appears exactly when the page is present. -/
theorem c5_chicago_separators (c : CitationData) :
    format_chicago c = chicagoSegments c := by
  unfold format_chicago chicagoSegments
  refine congrArg List.asString ?_
  split_ifs <;> simp [List.append_assoc]

/-- A Citation Fields value with only place and year populated. -/
def placeYearCitation : CitationData :=
  { author := none, title := none, publisher := none, place := some "P",
    year := some "1999", page := none, original_text := "" }

/-- C5 counterexample: with place and year present but author, title and
publisher absent, the output contains the `": "` separator though publisher
is absent, and the `", "` group though author and title are absent. -/
theorem c5_counterexample :
    format_chicago placeYearCitation = ", <em></em> (P: 1999)." ∧
      hasSegment (':' :: [spaceChar]) (", <em></em> (P: 1999).").toList = true ∧
      hasSegment (',' :: [spaceChar]) (", <em></em> (P: 1999).").toList = true := by
  refine ⟨by rfl, by decide, by decide⟩

/-- C6 (confirmed): on a container without the endnote-storage subdocument,
`process_document` fails immediately with exactly the reason
`"No endnotes found in document"`, for every style, flag and enrichment
environment; no output document is produced. -/
theorem c6_missing_endnotes_failure (style : String) (flag : Bool)
    (oracle : Option String → Option String → HttpOutcome) :
    process_document none style flag oracle =
      .failure "No endnotes found in document" := rfl

/-- C7 (confirmed): `lookup_citation` returns `none` rather than raising on
a transport failure or timeout, on a non-ok response, and on a malformed
body; and it returns `none` whatever the environment answers when both the
author and the title are falsy. -/
theorem c7_lookup_failure_modes (author title : Option String) :
    (∀ resp, truthy author = false → truthy title = false →
      lookup_citation author title resp = none) ∧
    lookup_citation author title .transportFailure = none ∧
    (∀ b, lookup_citation author title (.response false b) = none) ∧
    lookup_citation author title (.response true none) = none := by
  refine ⟨?_, ?_, ?_, ?_⟩
  · intro resp ha ht
    simp [lookup_citation, ha, ht]
  · by_cases h : (truthy author || truthy title) = true <;>
      simp [lookup_citation, h]
  · intro b
    by_cases h : (truthy author || truthy title) = true <;>
      simp [lookup_citation, h]
  · by_cases h : (truthy author || truthy title) = true <;>
      simp [lookup_citation, h]

/-- C7 witness: with both author and title absent the guard dominates even a
successful response carrying a candidate. -/
theorem c7_witness :
    lookup_citation none none
      (.response true (some ⟨[⟨["A"], some (some "T"), ["MIT Press"], [],
        some "1999"⟩]⟩)) = none :=
  (c7_lookup_failure_modes none none).1
    (.response true (some ⟨[⟨["A"], some (some "T"), ["MIT Press"], [],
      some "1999"⟩]⟩)) rfl rfl

def c8input : String := "1. Smith, John, A Study of Things, Acme Press, 1999, 42."

/-- C8 (amended): on the scenario input the label stripping removes only the
digits, the remnant `". Smith"` fails the uppercase-first-character test, so
the author is absent — not `"Smith"`; the title is `"John"`, the year
`"1999"` and the page `"42"`. -/
theorem c8_scenario_eval :
    parse_endnote_text c8input =
      { author := none, title := some "John", publisher := none, place := none,
        year := some "1999", page := some "42",
        original_text := ". Smith, John, A Study of Things, Acme Press, 1999, 42." } := by
  rfl

/-- C8 counterexample: the author the parser extracts from the scenario
input is not `"Smith"`. -/
theorem c8_counterexample :
    ((parse_endnote_text c8input).author == some "Smith") = false := by
  rfl

/-- C10 (confirmed): the inbound `use_incipit` format flag is accepted and
never read — two runs differing only in the flag return the same result and
the same output document. -/
theorem c10_incipit_flag_no_effect (endnotes : Option Doc) (style : String)
    (oracle : Option String → Option String → HttpOutcome) :
    process_document endnotes style true oracle =
      process_document endnotes style false oracle := rfl

/-! ## Write-back round trip (C3) -/

/-- The successful per-note write: all text nodes cleared, the first run (if
it has a text node) set to the tag-stripped text. -/
def applyNoteTxt (en : Endnote) (txt : String) : Endnote :=
  match en.wts with
  | [] => ⟨en.id, []⟩
  | t0 :: rest =>
    if t0.firstChild.isSome then
      ⟨en.id, ⟨some ((stripEmTags txt.toList).asString)⟩ :: rest.map clearWT⟩
    else ⟨en.id, clearWT t0 :: rest.map clearWT⟩

/-- The whole-document effect of a successful write on one note. -/
def applyNote (m : String → Option String) (en : Endnote) : Endnote :=
  match m en.id with
  | none => en
  | some txt => applyNoteTxt en txt

/-- The whole-document effect of a successful write. -/
def applyFormatted (doc : Doc) (m : String → Option String) : Doc :=
  doc.map (applyNote m)

theorem applyNoteTxt_id (en : Endnote) (txt : String) :
    (applyNoteTxt en txt).id = en.id := by
  unfold applyNoteTxt
  cases hw : en.wts with
  | nil => rfl
  | cons t0 rest =>
    obtain ⟨fc⟩ := t0
    cases fc <;> rfl

theorem applyNote_id (m : String → Option String) (en : Endnote) :
    (applyNote m en).id = en.id := by
  unfold applyNote
  cases m en.id with
  | none => rfl
  | some txt => exact applyNoteTxt_id en txt

theorem update_note_eq_ok (en : Endnote) (txt : String)
    (h : wtHeadOk en.wts = true) :
    update_note en txt = .ok (applyNoteTxt en txt) := by
  unfold update_note applyNoteTxt
  cases hw : en.wts with
  | nil => rfl
  | cons t0 rest =>
    have h2 : t0.firstChild.isSome = true := by
      unfold wtHeadOk at h
      rw [hw] at h
      exact h
    obtain ⟨fc⟩ := t0
    cases hc : fc with
    | none => rw [hc] at h2; simp at h2
    | some v => rfl

theorem update_of_good (doc : Doc) (m : String → Option String)
    (h : ∀ en ∈ doc, (m en.id).isSome = true → wtHeadOk en.wts = true) :
    update_endnotes_xml doc m = .ok (applyFormatted doc m) := by
  induction doc with
  | nil => rfl
  | cons en rest ih =>
    have hen : (match m en.id with
        | some txt => update_note en txt
        | none => .ok en) = Except.ok (applyNote m en) := by
      cases hm : m en.id with
      | none => simp [applyNote, hm]
      | some txt =>
        have hg : wtHeadOk en.wts = true :=
          h en (List.mem_cons_self _ _) (by rw [hm]; rfl)
        simp [applyNote, hm, update_note_eq_ok en txt hg]
    have hrest : update_endnotes_xml rest m = .ok (applyFormatted rest m) :=
      ih (fun e he hm => h e (List.mem_cons_of_mem _ he) hm)
    unfold update_endnotes_xml at hrest ⊢
    simp only [mapExcept, hen, hrest, applyFormatted, List.map_cons]

theorem foldr_texts_map_clearWT (wts : List WT) :
    (wts.map clearWT).foldr
      (fun t acc => (t.firstChild.getD "").toList ++ acc) [] = [] := by
  induction wts with
  | nil => rfl
  | cons t rest ih =>
    obtain ⟨fc⟩ := t
    simp only [List.map_cons, List.foldr_cons]
    rw [ih]
    cases fc <;> rfl

theorem joinTexts_applyNoteTxt (en : Endnote) (txt : String)
    (hne : en.wts ≠ []) (hok : wtHeadOk en.wts = true) :
    joinTexts (applyNoteTxt en txt).wts = (stripEmTags txt.toList).asString := by
  cases hw : en.wts with
  | nil => exact absurd hw hne
  | cons t0 rest =>
    have h2 : t0.firstChild.isSome = true := by
      unfold wtHeadOk at hok
      rw [hw] at hok
      exact hok
    obtain ⟨fc⟩ := t0
    cases hc : fc with
    | none => rw [hc] at h2; simp at h2
    | some v =>
      unfold applyNoteTxt
      rw [hw, hc]
      show joinTexts
          (⟨some ((stripEmTags txt.toList).asString)⟩ :: rest.map clearWT) =
        (stripEmTags txt.toList).asString
      unfold joinTexts
      simp only [List.foldr_cons]
      rw [foldr_texts_map_clearWT]
      rw [List.append_nil]
      rfl

theorem emApply_fst (m : String → Option String) (p : String × String) :
    (emApply m p).1 = p.1 := by
  unfold emApply
  cases m p.1 <;> rfl

theorem map_congr_mem {f g : α → β} :
    ∀ (l : List α), (∀ a ∈ l, f a = g a) → l.map f = l.map g := by
  intro l
  induction l with
  | nil => intro _; rfl
  | cons a l ih =>
    intro h
    simp only [List.map_cons]
    rw [h a (List.mem_cons_self _ _), ih (fun b hb => h b (List.mem_cons_of_mem _ hb))]

theorem emApply_pair (m : String → Option String) (k v : String) :
    emApply m (k, v) = (k, (emApply m (k, v)).2) := by
  have h := emApply_fst m (k, v)
  exact Prod.ext h rfl

theorem dictInsert_map_emApply (m : String → Option String)
    (acc : List (String × String)) (k v : String) :
    (dictInsert acc k v).map (emApply m) =
      dictInsert (acc.map (emApply m)) k (emApply m (k, v)).2 := by
  unfold dictInsert
  have hany : (acc.map (emApply m)).any (fun q => q.1 == k) =
      acc.any (fun q => q.1 == k) := by
    rw [List.any_map]
    apply congrArg
    funext q
    simp [Function.comp, emApply_fst]
  by_cases h : acc.any (fun q => q.1 == k) = true
  · rw [if_pos h, if_pos (by rw [hany]; exact h)]
    rw [List.map_map, List.map_map]
    apply map_congr_mem
    intro q hq
    by_cases hk : (q.1 == k) = true
    · have hk2 : ((emApply m q).1 == k) = true := by rw [emApply_fst]; exact hk
      simp only [Function.comp, hk, hk2, if_true]
      exact emApply_pair m k v
    · have hk2 : ((emApply m q).1 == k) = false := by
        rw [emApply_fst]
        exact Bool.eq_false_iff.mpr hk
      simp [Function.comp, hk, hk2]
  · rw [if_neg h, if_neg (by rw [hany]; exact h)]
    rw [List.map_append]
    simp only [List.map_cons, List.map_nil]
    rw [← emApply_pair]

theorem extractFrom_map (m : String → Option String) :
    ∀ (doc : Doc) (acc : List (String × String)), goodForUpdate doc m →
      extractFrom (acc.map (emApply m)) (doc.map (applyNote m)) =
        (extractFrom acc doc).map (emApply m) := by
  intro doc
  induction doc with
  | nil => intro acc _; rfl
  | cons en rest ih =>
    intro acc h
    have hrest : goodForUpdate rest m :=
      fun e he hm => h e (List.mem_cons_of_mem _ he) hm
    simp only [List.map_cons, extractFrom, applyNote_id]
    by_cases hq : noteQualifies en.id = true
    · rw [if_pos hq, if_pos hq]
      cases hm : m en.id with
      | none =>
        have hid : applyNote m en = en := by simp [applyNote, hm]
        have key : (dictInsert acc en.id (joinTexts en.wts)).map (emApply m) =
            dictInsert (acc.map (emApply m)) en.id (joinTexts en.wts) := by
          rw [dictInsert_map_emApply]
          simp [emApply, hm]
        rw [hid, ← key]
        exact ih _ hrest
      | some txt =>
        have hgood := h en (List.mem_cons_self _ _) (by rw [hm]; rfl)
        have hid : applyNote m en = applyNoteTxt en txt := by simp [applyNote, hm]
        have hjoin : joinTexts (applyNoteTxt en txt).wts =
            (stripEmTags txt.toList).asString :=
          joinTexts_applyNoteTxt en txt (hgood.2 hq) hgood.1
        have key : (dictInsert acc en.id (joinTexts en.wts)).map (emApply m) =
            dictInsert (acc.map (emApply m)) en.id
              ((stripEmTags txt.toList).asString) := by
          rw [dictInsert_map_emApply]
          simp [emApply, hm]
        rw [hid, hjoin, ← key]
        exact ih _ hrest
    · rw [if_neg hq, if_neg hq]
      exact ih _ hrest

/-- C3 (amended): for every document and mapping such that every mapped note
has a first text run carrying a text node (and a non-empty run list when its
id is addressable), the write side succeeds, and re-extraction returns the
emphasis-stripped formatted text for every addressable note id of the
document that the mapping covers, and the original extracted text for every
other entry — entrywise, the new extraction is the old one transformed by
`emApply`. -/
theorem c3_writeback_roundtrip (doc : Doc) (m : String → Option String)
    (h : goodForUpdate doc m) :
    (update_endnotes_xml doc m).isOk = true ∧
      ∀ d2, update_endnotes_xml doc m = .ok d2 →
        extract_endnotes d2 = (extract_endnotes doc).map (emApply m) := by
  have hup : update_endnotes_xml doc m = .ok (applyFormatted doc m) :=
    update_of_good doc m (fun en he hm => (h en he hm).1)
  constructor
  · rw [hup]; rfl
  · intro d2 h2
    rw [hup] at h2
    injection h2 with h3
    subst h3
    have := extractFrom_map m doc [] h
    simpa [extract_endnotes, applyFormatted] using this

def w3doc : Doc := [⟨"1", [⟨some "x"⟩, ⟨none⟩]⟩, ⟨"2", [⟨some "y"⟩]⟩]

def w3m : String → Option String :=
  fun id => if id = "1" then some "<em>T</em>, 1999." else none

def w3out : Doc := [⟨"1", [⟨some "T, 1999."⟩, ⟨none⟩]⟩, ⟨"2", [⟨some "y"⟩]⟩]

/-- C3 witness: a concrete two-note document, one note rewritten through the
mapping, evaluated through the round-trip theorem. -/
theorem c3_witness :
    (update_endnotes_xml w3doc w3m).isOk = true ∧
      extract_endnotes w3out = (extract_endnotes w3doc).map (emApply w3m) :=
  ⟨(c3_writeback_roundtrip w3doc w3m (by unfold goodForUpdate; decide)).1,
   (c3_writeback_roundtrip w3doc w3m
     (by unfold goodForUpdate; decide)).2 w3out (by rfl)⟩

def w3cDoc : Doc := [⟨"1", [⟨some "old"⟩]⟩]

def w3cM : String → Option String :=
  fun id => if id = "1" then some "a<em>b</em>" else none

def w3cOut : Doc := [⟨"1", [⟨some "ab"⟩]⟩]

/-- C3 counterexample: supplying the formatted text `"a<em>b</em>"` for note
`"1"` and re-extracting returns `"ab"`, not the supplied text — the
round-trip strips emphasis tags, so it is not the identity on the supplied
mapping. -/
theorem c3_counterexample :
    update_endnotes_xml w3cDoc w3cM = .ok w3cOut ∧
      extract_endnotes w3cOut = [("1", "ab")] ∧
      (("ab" : String) == "a<em>b</em>") = false := by
  refine ⟨by rfl, by rfl, by rfl⟩

/-! ## Reserved sentinel ids (C9) -/

theorem dictInsert_keys {P : String → Prop}
    (acc : List (String × String)) (k v : String)
    (hacc : ∀ p ∈ acc, P p.1) (hk : P k) :
    ∀ p ∈ dictInsert acc k v, P p.1 := by
  intro p hp
  unfold dictInsert at hp
  by_cases h : acc.any (fun q => q.1 == k) = true
  · rw [if_pos h] at hp
    obtain ⟨q, hq, hqe⟩ := List.mem_map.mp hp
    by_cases hqk : (q.1 == k) = true
    · rw [if_pos hqk] at hqe
      rw [← hqe]
      exact hk
    · rw [if_neg (by simpa using hqk)] at hqe
      rw [← hqe]
      exact hacc q hq
  · rw [if_neg h] at hp
    rcases List.mem_append.mp hp with h1 | h2
    · exact hacc p h1
    · have h3 : p = (k, v) := by simpa using h2
      rw [h3]
      exact hk

theorem extractFrom_keys :
    ∀ (doc : Doc) (acc : List (String × String)),
      (∀ p ∈ acc, noteQualifies p.1 = true) →
      ∀ p ∈ extractFrom acc doc, noteQualifies p.1 = true := by
  intro doc
  induction doc with
  | nil => intro acc h p hp; exact h p hp
  | cons en rest ih =>
    intro acc h p hp
    simp only [extractFrom] at hp
    by_cases hq : noteQualifies en.id = true
    · rw [if_pos hq] at hp
      exact ih _ (@dictInsert_keys (fun k => noteQualifies k = true) acc en.id
        (joinTexts en.wts) h hq) p hp
    · rw [if_neg hq] at hp
      exact ih _ h p hp

theorem extract_keys_qualify (d : Doc) :
    ∀ p ∈ extract_endnotes d, noteQualifies p.1 = true :=
  extractFrom_keys d [] (fun p hp => absurd hp (List.not_mem_nil p))

theorem mapExcept_ok_pointwise {f : α → Except ε β} :
    ∀ {l : List α} {l2 : List β}, mapExcept f l = .ok l2 →
      l2.length = l.length ∧
        ∀ i (h1 : i < l.length) (h2 : i < l2.length),
          f (l.get ⟨i, h1⟩) = .ok (l2.get ⟨i, h2⟩) := by
  intro l
  induction l with
  | nil =>
    intro l2 h
    simp only [mapExcept] at h
    injection h with h2
    subst h2
    exact ⟨rfl, fun i h1 _ => absurd h1 (by simp)⟩
  | cons a l ih =>
    intro l2 h
    simp only [mapExcept] at h
    cases hfa : f a with
    | error e => rw [hfa] at h; cases h
    | ok b =>
      rw [hfa] at h
      cases hrec : mapExcept f l with
      | error e => rw [hrec] at h; cases h
      | ok bs =>
        rw [hrec] at h
        injection h with h2
        subst h2
        obtain ⟨hlen, hpt⟩ := ih hrec
        refine ⟨by simp [hlen], ?_⟩
        intro i h1 h2
        cases i with
        | zero => simpa using hfa
        | succ j =>
          have hj1 : j < l.length := by simpa using h1
          have hj2 : j < bs.length := by simpa using h2
          simpa using hpt j hj1 hj2

theorem update_ok_pointwise (doc : Doc) (m : String → Option String)
    (d2 : Doc) (h : update_endnotes_xml doc m = .ok d2) :
    d2.length = doc.length ∧
      ∀ i (h1 : i < doc.length) (h2 : i < d2.length),
        m (doc.get ⟨i, h1⟩).id = none → d2.get ⟨i, h2⟩ = doc.get ⟨i, h1⟩ := by
  obtain ⟨hlen, hpt⟩ := mapExcept_ok_pointwise h
  refine ⟨hlen, ?_⟩
  intro i h1 h2 hm
  have hstep := hpt i h1 h2
  rw [hm] at hstep
  injection hstep with h3
  exact h3.symm

theorem find_zip_none (notes : List (String × String)) (fms : List String)
    (id : String) (hq : noteQualifies id = false)
    (hkeys : ∀ p ∈ notes, noteQualifies p.1 = true) :
    ((notes.map Prod.fst).zip fms).find? (fun q => q.1 == id) = none := by
  apply List.find?_eq_none.mpr
  intro x hx
  have hx1 : x.1 ∈ notes.map Prod.fst := (List.of_mem_zip hx).1
  obtain ⟨p, hp, hpe⟩ := List.mem_map.mp hx1
  intro hbe
  have hxid : x.1 = id := by simpa using hbe
  have hqx : noteQualifies x.1 = true := by
    rw [← hpe]
    exact hkeys p hp
  rw [hxid, hq] at hqx
  cases hqx

/-- C9 (confirmed): the reserved sentinel ids `"-1"` and `"0"` never occur as
keys of the extraction output, and a successful run of the pipeline never
modifies a note whose id is a reserved sentinel — the output document has the
same length and carries those notes unchanged. -/
theorem c9_sentinel_ids_preserved :
    (∀ (d : Doc), ∀ p ∈ extract_endnotes d, p.1 ≠ "-1" ∧ p.1 ≠ "0") ∧
    (∀ (d : Doc) (style : String) (flag : Bool)
        (oracle : Option String → Option String → HttpOutcome)
        (d2 : Doc) (n : Nat) (log : List LogEntry),
      process_document (some d) style flag oracle = .success d2 n log →
        d2.length = d.length ∧
          ∀ i (h1 : i < d.length) (h2 : i < d2.length),
            ((d.get ⟨i, h1⟩).id = "-1" ∨ (d.get ⟨i, h1⟩).id = "0") →
              d2.get ⟨i, h2⟩ = d.get ⟨i, h1⟩) := by
  constructor
  · intro d p hp
    have h := extract_keys_qualify d p hp
    simp only [noteQualifies, Bool.and_eq_true, bne_iff_ne] at h
    exact ⟨h.1.2, h.2⟩
  · intro d style flag oracle d2 n log hsuc
    simp only [process_document] at hsuc
    cases hmap : mapExcept
        (fun p => processNote style oracle p.1 p.2) (extract_endnotes d) with
    | error e => rw [hmap] at hsuc; simp at hsuc
    | ok results =>
      rw [hmap] at hsuc
      dsimp only at hsuc
      cases hupd : update_endnotes_xml d
          (fun id =>
            ((((extract_endnotes d).map Prod.fst).zip
              (results.map Prod.fst)).find? (fun q => q.1 == id)).map
              Prod.snd) with
      | error e =>
        rw [hupd] at hsuc
        simp at hsuc
      | ok dd =>
        rw [hupd] at hsuc
        simp only [ProcResult.success.injEq] at hsuc
        obtain ⟨hdd, _, _⟩ := hsuc
        subst hdd
        obtain ⟨hlen, hpt⟩ := update_ok_pointwise d _ dd hupd
        refine ⟨hlen, ?_⟩
        intro i h1 h2 hsent
        apply hpt i h1 h2
        have hq : noteQualifies (d.get ⟨i, h1⟩).id = false := by
          rcases hsent with h | h <;> rw [h] <;> rfl
        have hfind := find_zip_none (extract_endnotes d)
          (results.map Prod.fst) (d.get ⟨i, h1⟩).id hq (extract_keys_qualify d)
        show ((((extract_endnotes d).map Prod.fst).zip
            (results.map Prod.fst)).find?
            (fun q => q.1 == (d.get ⟨i, h1⟩).id)).map Prod.snd = none
        rw [hfind]
        rfl

def w9doc : Doc := [⟨"0", [⟨some "x"⟩]⟩, ⟨"1", [⟨some "t"⟩]⟩]

def w9oracle : Option String → Option String → HttpOutcome :=
  fun _ _ => .transportFailure

def w9out : Doc := [⟨"0", [⟨some "x"⟩]⟩, ⟨"1", [⟨some ", ."⟩]⟩]

def w9log : List LogEntry := [⟨"1", "t", ", <em></em>."⟩]

/-- C9 witness: a concrete run over a document holding the sentinel note
`"0"` and the content note `"1"` leaves the sentinel note untouched. -/
theorem c9_witness :
    w9out.get ⟨0, by decide⟩ = w9doc.get ⟨0, by decide⟩ :=
  (c9_sentinel_ids_preserved.2 w9doc "chicago" false w9oracle w9out 1 w9log
    (by rfl)).2 0 (by decide) (by decide) (Or.inr (by rfl))
